import Mathlib

/- Shallow embedding of the technical-analysis / portfolio-valuation core of
   the Financial-Analysis repository (src/server/services/yahooFinance.js and
   the portfolio route in the server routes), over exact rational arithmetic.
   JavaScript expressions that produce a non-finite number (NaN / Infinity)
   or `undefined` are modelled by `none` in an `Option` result. -/

namespace FinAnalysis

/-- JS array indexing `arr[i]`: a negative or out-of-range index yields
`undefined`, modelled as `none`. -/
def jsIndex (l : List ℚ) (i : Int) : Option ℚ :=
  if i < 0 then none else l.get? i.toNat

/-- JS division `a / b`: a zero denominator yields Infinity or NaN,
modelled as `none`. -/
def jsDiv (a b : ℚ) : Option ℚ :=
  if b = 0 then none else some (a / b)

/-- JS `arr.slice(-n)`.  For `n = 0` JS computes `slice(0)`, the whole
array; for `n > 0` it keeps the last `min n (length)` elements. -/
def sliceLast (l : List ℚ) (n : Nat) : List ℚ :=
  if n = 0 then l else l.drop (l.length - n)

/-- `arr.reduce((a, b) => a + b, 0)`. -/
def listSum (l : List ℚ) : ℚ :=
  l.foldl (· + ·) 0

/-- `Math.min(...arr)`: on an empty spread the result is not a usable
price (`Infinity`), modelled as `none`. -/
def jsMin : List ℚ → Option ℚ
  | [] => none
  | x :: xs => some (xs.foldl min x)

/-- `Math.max(...arr)`. -/
def jsMax : List ℚ → Option ℚ
  | [] => none
  | x :: xs => some (xs.foldl max x)

/-- `calculateSMA(prices, period)` from the market-data service:
`if (prices.length < period) return 0;` then the mean of the trailing
`period` closes. -/
def calculateSMA (prices : List ℚ) (period : Nat) : Option ℚ :=
  if prices.length < period then some 0
  else
    let recentPrices := sliceLast prices period
    jsDiv (listSum recentPrices) recentPrices.length

/-- `calculatePriceChange(prices, days)`:
`if (prices.length < days) return 0;` then
`((prices[len-1] - prices[len-days-1]) / prices[len-days-1]) * 100`. -/
def calculatePriceChange (prices : List ℚ) (days : Nat) : Option ℚ :=
  if prices.length < days then some 0
  else do
    let current ← jsIndex prices ((prices.length : Int) - 1)
    let previous ← jsIndex prices ((prices.length : Int) - (days : Int) - 1)
    let ratio ← jsDiv (current - previous) previous
    some (ratio * 100)

/-- The day-over-day changes `prices[i] - prices[i-1]` built by the loop in
`calculateRSI`. -/
def rsiChanges (prices : List ℚ) : List ℚ :=
  List.zipWith (fun x y => x - y) (prices.drop 1) prices

/-- `gains` list of `calculateRSI`: `change > 0 ? change : 0`. -/
def rsiGains (prices : List ℚ) : List ℚ :=
  (rsiChanges prices).map (fun c => if 0 < c then c else 0)

/-- `losses` list of `calculateRSI`: `change < 0 ? Math.abs(change) : 0`. -/
def rsiLosses (prices : List ℚ) : List ℚ :=
  (rsiChanges prices).map (fun c => if c < 0 then -c else 0)

/-- `calculateRSI(prices, period)` from the market-data service. -/
def calculateRSI (prices : List ℚ) (period : Nat) : Option ℚ :=
  if prices.length < period + 1 then some 50
  else do
    let avgGain ← jsDiv (listSum (sliceLast (rsiGains prices) period)) period
    let avgLoss ← jsDiv (listSum (sliceLast (rsiLosses prices) period)) period
    if avgLoss = 0 then some 100
    else do
      let rs ← jsDiv avgGain avgLoss
      let frac ← jsDiv 100 (1 + rs)
      some (100 - frac)

/-- `calculateSupportLevel(prices)`: if fewer than 20 closes, the last
close (`prices[prices.length - 1]`), else `Math.min(...prices.slice(-20))`. -/
def calculateSupportLevel (prices : List ℚ) : Option ℚ :=
  if prices.length < 20 then jsIndex prices ((prices.length : Int) - 1)
  else jsMin (sliceLast prices 20)

/-- `calculateResistanceLevel(prices)`: if fewer than 20 closes, the last
close, else `Math.max(...prices.slice(-20))`. -/
def calculateResistanceLevel (prices : List ℚ) : Option ℚ :=
  if prices.length < 20 then jsIndex prices ((prices.length : Int) - 1)
  else jsMax (sliceLast prices 20)

/-- A portfolio holding as passed to `calculatePortfolioValue`:
`{symbol, shares, avgPrice}`. -/
structure Holding where
  symbol : String
  shares : ℚ
  avgPrice : ℚ
deriving DecidableEq

/-- The fields of a fetched quote that `calculatePortfolioValue` reads:
`{symbol, currentPrice, change, changePercent}`. -/
structure Quote where
  symbol : String
  currentPrice : ℚ
  change : ℚ
  changePercent : ℚ
deriving DecidableEq

/-- One entry of the `updatedHoldings` array built by
`calculatePortfolioValue` (`{...holding, currentPrice, currentValue,
gainLoss, gainLossPercent, dayChange, dayChangePercent}`).
`gainLossPercent` is `none` when the JS value is NaN/Infinity
(zero cost basis). -/
structure UpdatedHolding where
  symbol : String
  shares : ℚ
  avgPrice : ℚ
  currentPrice : ℚ
  currentValue : ℚ
  gainLoss : ℚ
  gainLossPercent : Option ℚ
  dayChange : ℚ
  dayChangePercent : ℚ
deriving DecidableEq

/-- The object returned by `calculatePortfolioValue`.  `totalCost` and
`timestamp` are `Option` because the early return for an empty holdings
list includes neither field (the JS object simply lacks them). -/
structure PortfolioValuation where
  totalValue : ℚ
  totalCost : Option ℚ
  totalGainLoss : ℚ
  totalGainLossPercent : ℚ
  holdings : List UpdatedHolding
  timestamp : Option Nat
deriving DecidableEq

/-- `getMultipleQuotes(symbols)`: `Promise.all(symbols.map(getStockQuote))`.
The provider call is abstracted as `fetch`; a `fetch` returning `none`
models a quote fetch that throws, and `Promise.all` (and the rethrowing
`catch`) turn any single failure into failure of the whole batch. -/
def getMultipleQuotes (fetch : String → Option Quote) : List String → Option (List Quote)
  | [] => some []
  | s :: rest => do
    let q ← fetch s
    let qs ← getMultipleQuotes fetch rest
    some (q :: qs)

/-- The per-holding record pushed by the loop body of
`calculatePortfolioValue` when `quotes.find` matched a quote. -/
def updateHolding (h : Holding) (q : Quote) : UpdatedHolding :=
  let currentValue := h.shares * q.currentPrice
  let costBasis := h.shares * h.avgPrice
  let gainLoss := currentValue - costBasis
  { symbol := h.symbol
    shares := h.shares
    avgPrice := h.avgPrice
    currentPrice := q.currentPrice
    currentValue := currentValue
    gainLoss := gainLoss
    gainLossPercent := (jsDiv gainLoss costBasis).map (· * 100)
    dayChange := h.shares * q.change
    dayChangePercent := q.changePercent }

/-- One iteration of the `for` loop of `calculatePortfolioValue`: the
accumulator is `(totalValue, totalCost, updatedHoldings)`; a holding whose
symbol matches no quote leaves the accumulator unchanged. -/
def portfolioStep (quotes : List Quote) (acc : ℚ × ℚ × List UpdatedHolding)
    (h : Holding) : ℚ × ℚ × List UpdatedHolding :=
  match quotes.find? (fun q => q.symbol == h.symbol) with
  | some q =>
      (acc.1 + h.shares * q.currentPrice, acc.2.1 + h.shares * h.avgPrice,
        acc.2.2 ++ [updateHolding h q])
  | none => acc

/-- `calculatePortfolioValue(holdings)`.  `now` is the clock value used for
the `timestamp` field; `fetch` abstracts the quote provider. -/
def calculatePortfolioValue (now : Nat) (fetch : String → Option Quote)
    (holdings : List Holding) : Option PortfolioValuation :=
  if holdings.isEmpty then
    some { totalValue := 0, totalCost := none, totalGainLoss := 0,
           totalGainLossPercent := 0, holdings := [], timestamp := none }
  else do
    let quotes ← getMultipleQuotes fetch (holdings.map Holding.symbol)
    let acc := holdings.foldl (portfolioStep quotes) (0, 0, [])
    let totalGainLoss := acc.1 - acc.2.1
    some { totalValue := acc.1
           totalCost := some acc.2.1
           totalGainLoss := totalGainLoss
           totalGainLossPercent :=
             if 0 < acc.2.1 then totalGainLoss / acc.2.1 * 100 else 0
           holdings := acc.2.2
           timestamp := some now }

/-- `this.cacheTimeout = 5 * 60 * 1000` (milliseconds). -/
def cacheTimeout : Nat := 5 * 60 * 1000

/-- A `this.cache` entry: `{data, timestamp}`. -/
structure CacheEntry where
  data : Quote
  timestamp : Nat
deriving DecidableEq

/-- The cache `Map`, modelled as an association list in which the most
recent binding for a key comes first (`Map.get` finds it). -/
def Cache := List (String × CacheEntry)

/-- `this.cache.get(key)`. -/
def cacheMapGet : Cache → String → Option CacheEntry
  | [], _ => none
  | (k, e) :: rest, key => if k == key then some e else cacheMapGet rest key

/-- `getCached(key)`: the stored data if an entry exists and
`now - timestamp < cacheTimeout`, else `null`. -/
def getCached (cache : Cache) (now : Nat) (key : String) : Option Quote :=
  match cacheMapGet cache key with
  | some e => if now - e.timestamp < cacheTimeout then some e.data else none
  | none => none

/-- `setCached(key, data)`: `this.cache.set(key, {data, timestamp: now})`,
i.e. insert-or-replace; lookup sees the new binding. -/
def setCached (cache : Cache) (now : Nat) (key : String) (d : Quote) : Cache :=
  (key, { data := d, timestamp := now }) :: cache

/-- The caching discipline of `getStockQuote` (and the other fetching
methods): consult `getCached`; on a hit return the cached data, otherwise
invoke the provider (`fetcher`), store the result via `setCached` and
return it.  The result also carries the updated cache and a flag recording
whether the fetcher was invoked. -/
def cachedGet (cache : Cache) (now : Nat) (key : String)
    (fetcher : Unit → Quote) : Quote × Cache × Bool :=
  match getCached cache now key with
  | some d => (d, cache, false)
  | none =>
      let d := fetcher ()
      (d, setCached cache now key d, true)

/-- An entry of a user's stored portfolio as the add-stock route keeps it
(only the fields the weighted-average merge reads and writes). -/
structure PortfolioEntry where
  symbol : String
  shares : ℚ
  avgPrice : ℚ
deriving DecidableEq

/-- The merge the add-stock route performs when the added symbol already
exists: `totalShares = existing.shares + added.shares`;
`avgPrice = (existing.shares*existing.avgPrice + added.shares*added.avgPrice)
/ totalShares`. -/
def mergeAdd (existing added : PortfolioEntry) : PortfolioEntry :=
  let totalShares := existing.shares + added.shares
  { existing with
    shares := totalShares
    avgPrice :=
      (existing.shares * existing.avgPrice + added.shares * added.avgPrice)
        / totalShares }

/-- The add-stock route: `findIndex` on the symbol; on a hit replace that
entry by the merge, otherwise push a fresh entry whose `avgPrice` is the
purchase price.  Modelled by updating the first matching entry. -/
def addStock : List PortfolioEntry → String → ℚ → ℚ → List PortfolioEntry
  | [], symbol, shares, price => [{ symbol := symbol, shares := shares, avgPrice := price }]
  | e :: rest, symbol, shares, price =>
      if e.symbol == symbol then
        mergeAdd e { symbol := symbol, shares := shares, avgPrice := price } :: rest
      else
        e :: addStock rest symbol shares price

/-! ### Shared helper lemmas -/

lemma foldl_add_shift : ∀ (l : List ℚ) (a : ℚ),
    l.foldl (· + ·) a = a + l.foldl (· + ·) 0
  | [], a => by simp
  | x :: xs, a => by
    simp only [List.foldl_cons]
    rw [foldl_add_shift xs (a + x), foldl_add_shift xs (0 + x)]
    ring

lemma listSum_cons (x : ℚ) (l : List ℚ) : listSum (x :: l) = x + listSum l := by
  unfold listSum
  rw [List.foldl_cons, foldl_add_shift]
  ring

lemma listSum_nonneg : ∀ {l : List ℚ}, (∀ x ∈ l, 0 ≤ x) → 0 ≤ listSum l
  | [], _ => le_refl 0
  | x :: xs, h => by
    rw [listSum_cons]
    have hx := h x (List.mem_cons_self x xs)
    have hxs := listSum_nonneg (fun y hy => h y (List.mem_cons_of_mem x hy))
    linarith

lemma mem_sliceLast {x : ℚ} {l : List ℚ} {n : Nat} (hx : x ∈ sliceLast l n) :
    x ∈ l := by
  unfold sliceLast at hx
  split at hx
  · exact hx
  · exact List.mem_of_mem_drop hx

lemma foldl_min_le_init : ∀ (xs : List ℚ) (x : ℚ), xs.foldl min x ≤ x
  | [], x => le_refl x
  | y :: ys, x => by
    rw [List.foldl_cons]
    exact le_trans (foldl_min_le_init ys (min x y)) (min_le_left x y)

lemma foldl_min_le : ∀ (xs : List ℚ) (x y : ℚ), y ∈ x :: xs → xs.foldl min x ≤ y
  | [], x, y, hy => by
    rw [List.mem_singleton] at hy
    rw [hy, List.foldl_nil]
  | z :: zs, x, y, hy => by
    rw [List.foldl_cons]
    rcases List.mem_cons.mp hy with h1 | h2
    · exact le_trans (foldl_min_le_init zs (min x z)) (by rw [h1]; exact min_le_left x z)
    · rcases List.mem_cons.mp h2 with h3 | h4
      · exact le_trans (foldl_min_le_init zs (min x z)) (by rw [h3]; exact min_le_right x z)
      · exact foldl_min_le zs (min x z) y (List.mem_cons_of_mem _ h4)

lemma foldl_min_mem : ∀ (xs : List ℚ) (x : ℚ), xs.foldl min x ∈ x :: xs
  | [], x => List.mem_singleton.mpr rfl
  | y :: ys, x => by
    rw [List.foldl_cons]
    have h := foldl_min_mem ys (min x y)
    rcases List.mem_cons.mp h with h1 | h2
    · rcases min_choice x y with hxy | hxy
      · rw [h1, hxy]; exact List.mem_cons_self x (y :: ys)
      · rw [h1, hxy]
        exact List.mem_cons_of_mem x (List.mem_cons_self y ys)
    · exact List.mem_cons_of_mem x (List.mem_cons_of_mem y h2)

lemma le_foldl_max_init : ∀ (xs : List ℚ) (x : ℚ), x ≤ xs.foldl max x
  | [], x => le_refl x
  | y :: ys, x => by
    rw [List.foldl_cons]
    exact le_trans (le_max_left x y) (le_foldl_max_init ys (max x y))

lemma le_foldl_max : ∀ (xs : List ℚ) (x y : ℚ), y ∈ x :: xs → y ≤ xs.foldl max x
  | [], x, y, hy => by
    rw [List.mem_singleton] at hy
    rw [hy, List.foldl_nil]
  | z :: zs, x, y, hy => by
    rw [List.foldl_cons]
    rcases List.mem_cons.mp hy with h1 | h2
    · exact le_trans (by rw [h1]; exact le_max_left x z) (le_foldl_max_init zs (max x z))
    · rcases List.mem_cons.mp h2 with h3 | h4
      · exact le_trans (by rw [h3]; exact le_max_right x z) (le_foldl_max_init zs (max x z))
      · exact le_foldl_max zs (max x z) y (List.mem_cons_of_mem _ h4)

lemma foldl_max_mem : ∀ (xs : List ℚ) (x : ℚ), xs.foldl max x ∈ x :: xs
  | [], x => List.mem_singleton.mpr rfl
  | y :: ys, x => by
    rw [List.foldl_cons]
    have h := foldl_max_mem ys (max x y)
    rcases List.mem_cons.mp h with h1 | h2
    · rcases max_choice x y with hxy | hxy
      · rw [h1, hxy]; exact List.mem_cons_self x (y :: ys)
      · rw [h1, hxy]
        exact List.mem_cons_of_mem x (List.mem_cons_self y ys)
    · exact List.mem_cons_of_mem x (List.mem_cons_of_mem y h2)

@[simp] lemma updateHolding_currentValue (h : Holding) (q : Quote) :
    (updateHolding h q).currentValue = h.shares * q.currentPrice := rfl

@[simp] lemma updateHolding_shares (h : Holding) (q : Quote) :
    (updateHolding h q).shares = h.shares := rfl

@[simp] lemma updateHolding_avgPrice (h : Holding) (q : Quote) :
    (updateHolding h q).avgPrice = h.avgPrice := rfl

/-- The holdings of the loop output, described declaratively: each holding
whose symbol matches a fetched quote contributes its updated record, in
input order; the rest are dropped. -/
def matchedHoldings (quotes : List Quote) (holdings : List Holding) :
    List UpdatedHolding :=
  holdings.filterMap
    (fun h => (quotes.find? (fun q => q.symbol == h.symbol)).map (updateHolding h))

lemma portfolioStep_none {quotes : List Quote} {h : Holding}
    (hfind : quotes.find? (fun q => q.symbol == h.symbol) = none)
    (acc : ℚ × ℚ × List UpdatedHolding) :
    portfolioStep quotes acc h = acc := by
  simp [portfolioStep, hfind]

lemma portfolioStep_some {quotes : List Quote} {h : Holding} {q : Quote}
    (hfind : quotes.find? (fun q => q.symbol == h.symbol) = some q)
    (tv tc : ℚ) (us : List UpdatedHolding) :
    portfolioStep quotes (tv, tc, us) h =
      (tv + h.shares * q.currentPrice, tc + h.shares * h.avgPrice,
        us ++ [updateHolding h q]) := by
  simp [portfolioStep, hfind]

lemma foldl_portfolioStep (quotes : List Quote) :
    ∀ (hs : List Holding) (tv tc : ℚ) (us : List UpdatedHolding),
      hs.foldl (portfolioStep quotes) (tv, tc, us) =
        (tv + listSum ((matchedHoldings quotes hs).map UpdatedHolding.currentValue),
         tc + listSum ((matchedHoldings quotes hs).map (fun u => u.shares * u.avgPrice)),
         us ++ matchedHoldings quotes hs)
  | [], tv, tc, us => by
    simp [matchedHoldings, listSum]
  | h :: hs, tv, tc, us => by
    rw [List.foldl_cons]
    cases hfind : quotes.find? (fun q => q.symbol == h.symbol) with
    | none =>
        rw [portfolioStep_none hfind, foldl_portfolioStep quotes hs tv tc us]
        simp [matchedHoldings, List.filterMap_cons, hfind]
    | some q =>
        rw [portfolioStep_some hfind, foldl_portfolioStep quotes hs
          (tv + h.shares * q.currentPrice) (tc + h.shares * h.avgPrice)
          (us ++ [updateHolding h q])]
        simp only [matchedHoldings, List.filterMap_cons, hfind, Option.map_some']
        rw [Prod.mk.injEq, Prod.mk.injEq]
        refine ⟨?_, ?_, ?_⟩
        · rw [List.map_cons, listSum_cons, updateHolding_currentValue]; ring
        · rw [List.map_cons, listSum_cons, updateHolding_shares, updateHolding_avgPrice]; ring
        · rw [List.append_assoc, List.singleton_append]

lemma getMultipleQuotes_failure (fetch : String → Option Quote) :
    ∀ (symbols : List String) (s : String), s ∈ symbols → fetch s = none →
      getMultipleQuotes fetch symbols = none
  | [], s, hs, _ => absurd hs (List.not_mem_nil s)
  | t :: rest, s, hs, hfail => by
    unfold getMultipleQuotes
    rcases List.mem_cons.mp hs with h1 | h2
    · rw [← h1, hfail]
      rfl
    · cases hft : fetch t with
      | none => rfl
      | some q =>
          rw [getMultipleQuotes_failure fetch rest s h2 hfail]
          rfl

/-! ### Concrete fixtures used by counterexamples and witnesses -/

/-- A quote for symbol `X`: price 60, day change 2, changePercent 3.45. -/
def sampleQuoteX : Quote :=
  { symbol := "X", currentPrice := 60, change := 2, changePercent := 69 / 20 }

/-- A second, distinct quote. -/
def sampleQuoteY : Quote :=
  { symbol := "Y", currentPrice := 1, change := 0, changePercent := 0 }

/-- A provider that resolves only symbol `X`. -/
def sampleFetchX : String → Option Quote :=
  fun s => if s == "X" then some sampleQuoteX else none

/-- The spec scenario holding: 10 shares of `X` at average price 50. -/
def sampleHoldingX : Holding := { symbol := "X", shares := 10, avgPrice := 50 }

/-! ### Claim theorems -/

/-- C5: the weighted-average merge performed when the same symbol is added
again satisfies `newShares = oldShares + addedShares` and `newAvgPrice =
(oldShares*oldAvgPrice + addedShares*addedPrice) / (oldShares+addedShares)`,
and two adds of the same symbol applied in either order yield the same
resulting `{shares, avgPrice}` in exact arithmetic. -/
theorem mergeAdd_order_independent (sym : String) (s1 p1 s2 p2 : ℚ) :
    (∀ e a : PortfolioEntry,
        (mergeAdd e a).shares = e.shares + a.shares ∧
        (mergeAdd e a).avgPrice =
          (e.shares * e.avgPrice + a.shares * a.avgPrice) /
            (e.shares + a.shares)) ∧
    addStock (addStock [] sym s1 p1) sym s2 p2 =
      addStock (addStock [] sym s2 p2) sym s1 p1 := by
  refine ⟨fun e a => ⟨rfl, rfl⟩, ?_⟩
  simp only [addStock, beq_self_eq_true, if_true, mergeAdd, PortfolioEntry.mk.injEq,
    List.cons.injEq, and_true]
  exact ⟨trivial, by ring, by rw [add_comm s1 s2, add_comm (s1 * p1) (s2 * p2)]⟩

/-- C3 counterexample: with exactly `daysBack` prices (here `[100]` and
`daysBack = 1`) the claim demands the result 0, but the code reads
`prices[prices.length - days - 1] = prices[-1]`, i.e. `undefined`, and the
arithmetic on it yields NaN (modelled `none`), not 0. -/
theorem priceChange_boundary_not_zero :
    calculatePriceChange [100] 1 = none ∧ calculatePriceChange [100] 1 ≠ some 0 := by
  decide

/-- C3 (amended): `calculatePriceChange` returns 0 when
`len(prices) < daysBack` (strictly fewer); when `len(prices) > daysBack`
and the reference price is nonzero it returns
`(last - prices[len-1-daysBack]) / prices[len-1-daysBack] * 100`; at
`len(prices) = daysBack` the reference index is out of range and the result
is NaN, not 0. -/
theorem priceChange_formula (prices : List ℚ) (days : Nat) :
    (prices.length < days → calculatePriceChange prices days = some 0) ∧
    (∀ current previous : ℚ, days < prices.length →
      prices.get? (prices.length - 1) = some current →
      prices.get? (prices.length - 1 - days) = some previous →
      previous ≠ 0 →
      calculatePriceChange prices days =
        some ((current - previous) / previous * 100)) := by
  constructor
  · intro hlt
    unfold calculatePriceChange
    rw [if_pos hlt]
  · intro current previous hdays hcur hprev hne
    have h1 : jsIndex prices ((prices.length : Int) - 1) = some current := by
      unfold jsIndex
      rw [if_neg (by omega)]
      have ht : ((prices.length : Int) - 1).toNat = prices.length - 1 := by omega
      rw [ht, hcur]
    have h2 : jsIndex prices ((prices.length : Int) - (days : Int) - 1) = some previous := by
      unfold jsIndex
      rw [if_neg (by omega)]
      have ht : ((prices.length : Int) - (days : Int) - 1).toNat =
          prices.length - 1 - days := by omega
      rw [ht, hprev]
    unfold calculatePriceChange
    rw [if_neg (by omega)]
    simp [h1, h2, jsDiv, hne]

/-- Witness for C3: the spec's concrete scenario
`PriceChange([100,102,101,105,107,106,110], 3) = (110-105)/105*100`, and a
strictly-shorter sequence yields 0. -/
theorem priceChange_formula_witness :
    calculatePriceChange [100, 102, 101, 105, 107, 106, 110] 3 =
      some ((110 - 105) / 105 * 100) ∧
    calculatePriceChange [100] 2 = some 0 := by
  constructor
  · exact (priceChange_formula [100, 102, 101, 105, 107, 106, 110] 3).2 110 105
      (by decide) (by decide) (by decide) (by decide)
  · exact (priceChange_formula [100] 2).1 (by decide)

/-- C2 counterexample: the early return for an empty holdings list carries
no `totalCost` field at all (modelled `none`), whereas the claim requires
the returned record to contain `totalCost = 0`. -/
theorem empty_valuation_lacks_totalCost :
    (calculatePortfolioValue 0 (fun _ => none) []).map PortfolioValuation.totalCost =
      some none := by
  decide

/-- C2 (amended): for the empty holdings list the valuation returns
immediately with `totalValue = 0`, `totalGainLoss = 0`,
`totalGainLossPercent = 0` and an empty holdings list, but with no
`totalCost` (and no `timestamp`) field; the quote fetcher is never
consulted — the result is the same for every fetcher and clock. -/
theorem empty_valuation_zero_record (now : Nat) (fetch : String → Option Quote) :
    calculatePortfolioValue now fetch [] =
      some { totalValue := 0, totalCost := none, totalGainLoss := 0,
             totalGainLossPercent := 0, holdings := [], timestamp := none } := rfl

/-- C9 counterexample: two valuations of the same holdings with the same
quotes, run at clock values 0 and 1, differ in the returned `timestamp`
field, so the outputs are not bit-for-bit identical. -/
theorem valuation_timestamp_differs :
    calculatePortfolioValue 0 sampleFetchX [sampleHoldingX] ≠
      calculatePortfolioValue 1 sampleFetchX [sampleHoldingX] := by
  intro heq
  have h0 : (calculatePortfolioValue 0 sampleFetchX [sampleHoldingX]).map
      PortfolioValuation.timestamp = some (some 0) := rfl
  rw [heq] at h0
  have h1 : (calculatePortfolioValue 1 sampleFetchX [sampleHoldingX]).map
      PortfolioValuation.timestamp = some (some 1) := rfl
  rw [h1] at h0
  exact absurd h0 (by simp)

/-- The valuation record with its `timestamp` field erased. -/
def stripTimestamp (v : PortfolioValuation) : PortfolioValuation :=
  { v with timestamp := none }

/-- C9 (amended): with unchanged holdings and unchanged quotes, repeated
valuations agree bit-for-bit on every field except `timestamp`, which
records the invocation time. -/
theorem valuation_deterministic_up_to_timestamp (now1 now2 : Nat)
    (fetch : String → Option Quote) (holdings : List Holding) :
    (calculatePortfolioValue now1 fetch holdings).map stripTimestamp =
      (calculatePortfolioValue now2 fetch holdings).map stripTimestamp := by
  unfold calculatePortfolioValue
  cases hempty : holdings.isEmpty with
  | true => simp [hempty]
  | false =>
      cases hq : getMultipleQuotes fetch (holdings.map Holding.symbol) with
      | none => simp [hempty, hq]
      | some quotes => simp [hempty, hq, stripTimestamp]

/-- C1 counterexample: a single failing quote fetch (a fetcher that
throws) makes the whole valuation fail — `Promise.all` rejects and the
`catch` rethrows — instead of succeeding with the affected holding
omitted as the claim states. -/
theorem valuation_fails_on_single_fetch_failure :
    calculatePortfolioValue 0 (fun _ => none) [sampleHoldingX] = none := by
  decide

/-- C1 (amended): a quote fetch that throws for any holding's symbol makes
the whole valuation fail (`Promise.all` propagates the rejection and the
`catch` rethrows).  When every symbol's fetch succeeds, the valuation
succeeds; each holding whose symbol matches a fetched quote is included
(via `updateHolding`) and the totals sum over exactly those holdings, while
a holding whose symbol matches no returned quote is omitted from the
returned holdings list and from `totalValue`/`totalCost`. -/
theorem valuation_partial_inclusion (now : Nat) (fetch : String → Option Quote)
    (holdings : List Holding) :
    ((∃ h ∈ holdings, fetch h.symbol = none) →
      calculatePortfolioValue now fetch holdings = none) ∧
    (∀ quotes : List Quote, holdings ≠ [] →
      getMultipleQuotes fetch (holdings.map Holding.symbol) = some quotes →
      calculatePortfolioValue now fetch holdings =
        some { totalValue :=
                 listSum ((matchedHoldings quotes holdings).map
                   UpdatedHolding.currentValue)
               totalCost :=
                 some (listSum ((matchedHoldings quotes holdings).map
                   (fun u => u.shares * u.avgPrice)))
               totalGainLoss :=
                 listSum ((matchedHoldings quotes holdings).map
                   UpdatedHolding.currentValue) -
                 listSum ((matchedHoldings quotes holdings).map
                   (fun u => u.shares * u.avgPrice))
               totalGainLossPercent :=
                 if 0 < listSum ((matchedHoldings quotes holdings).map
                     (fun u => u.shares * u.avgPrice)) then
                   (listSum ((matchedHoldings quotes holdings).map
                      UpdatedHolding.currentValue) -
                    listSum ((matchedHoldings quotes holdings).map
                      (fun u => u.shares * u.avgPrice))) /
                   listSum ((matchedHoldings quotes holdings).map
                     (fun u => u.shares * u.avgPrice)) * 100
                 else 0
               holdings := matchedHoldings quotes holdings
               timestamp := some now }) := by
  constructor
  · rintro ⟨h, hmem, hfail⟩
    have hne : holdings ≠ [] := by
      intro hnil
      rw [hnil] at hmem
      exact List.not_mem_nil h hmem
    have hempty : holdings.isEmpty = false := by
      cases holdings with
      | nil => exact absurd rfl hne
      | cons a t => rfl
    have hq : getMultipleQuotes fetch (holdings.map Holding.symbol) = none :=
      getMultipleQuotes_failure fetch (holdings.map Holding.symbol) h.symbol
        (List.mem_map_of_mem Holding.symbol hmem) hfail
    unfold calculatePortfolioValue
    simp [hempty, hq]
  · intro quotes hne hq
    have hempty : holdings.isEmpty = false := by
      cases holdings with
      | nil => exact absurd rfl hne
      | cons a t => rfl
    unfold calculatePortfolioValue
    simp only [hempty, Bool.false_eq_true, if_false, hq, Option.bind_eq_bind,
      Option.some_bind]
    rw [foldl_portfolioStep quotes holdings 0 0 []]
    simp

/-- Witness for C1: with a provider resolving only `A` (and returning a
quote whose symbol field matches no holding for `B`'s request), the batch
succeeds and the valuation includes `A` and omits `B`; with a provider
that throws, the same valuation fails outright. -/
theorem valuation_partial_inclusion_witness :
    calculatePortfolioValue 7
        (fun s => if s == "A" then some { symbol := "A", currentPrice := 60, change := 2, changePercent := 69 / 20 } else some sampleQuoteY)
        [{ symbol := "A", shares := 10, avgPrice := 50 },
         { symbol := "B", shares := 5, avgPrice := 10 }] =
      some { totalValue := 600, totalCost := some 500, totalGainLoss := 100,
             totalGainLossPercent := 20,
             holdings := [updateHolding { symbol := "A", shares := 10, avgPrice := 50 }
               { symbol := "A", currentPrice := 60, change := 2, changePercent := 69 / 20 }],
             timestamp := some 7 } ∧
    calculatePortfolioValue 7 (fun _ => none) [sampleHoldingX] = none := by
  constructor
  · rw [(valuation_partial_inclusion 7
        (fun s => if s == "A" then some { symbol := "A", currentPrice := 60, change := 2, changePercent := 69 / 20 } else some sampleQuoteY)
        [{ symbol := "A", shares := 10, avgPrice := 50 },
         { symbol := "B", shares := 5, avgPrice := 10 }]).2
        [{ symbol := "A", currentPrice := 60, change := 2, changePercent := 69 / 20 },
          sampleQuoteY]
        (by simp) (by rfl)]
    have hm : matchedHoldings
        [{ symbol := "A", currentPrice := 60, change := 2, changePercent := 69 / 20 },
          sampleQuoteY]
        [{ symbol := "A", shares := 10, avgPrice := 50 },
         { symbol := "B", shares := 5, avgPrice := 10 }] =
        [updateHolding { symbol := "A", shares := 10, avgPrice := 50 }
          { symbol := "A", currentPrice := 60, change := 2, changePercent := 69 / 20 }] := by
      rfl
    rw [hm]
    norm_num [listSum_cons, listSum, updateHolding]
  · exact (valuation_partial_inclusion 7 (fun _ => none) [sampleHoldingX]).1
      ⟨sampleHoldingX, List.mem_singleton.mpr rfl, rfl⟩

/-- C4 counterexample: the per-holding `gainLossPercent` is not guarded
against a zero cost basis: for a resolved holding with `shares = 0` the
code computes `0/0` (NaN, modelled `none`) instead of the claimed 0. -/
theorem holding_gainLossPercent_unguarded :
    (calculatePortfolioValue 0 sampleFetchX
        [{ symbol := "X", shares := 0, avgPrice := 50 }]).map
      (fun v => v.holdings.map UpdatedHolding.gainLossPercent) = some [none] := by
  have hq : getMultipleQuotes sampleFetchX
      (([{ symbol := "X", shares := 0, avgPrice := 50 }] : List Holding).map Holding.symbol) =
      some [sampleQuoteX] := rfl
  unfold calculatePortfolioValue
  simp only [List.isEmpty, Bool.false_eq_true, if_false, hq, Option.bind_eq_bind,
    Option.some_bind]
  rw [foldl_portfolioStep [sampleQuoteX] [{ symbol := "X", shares := 0, avgPrice := 50 }] 0 0 []]
  have hm : matchedHoldings [sampleQuoteX] [{ symbol := "X", shares := 0, avgPrice := 50 }] =
      [updateHolding { symbol := "X", shares := 0, avgPrice := 50 } sampleQuoteX] := rfl
  simp only [Option.map_some', hm]
  simp [updateHolding, jsDiv]

/-- C4 (amended): for every holding whose symbol resolved to a quote, the
updated record satisfies `currentValue = shares * currentPrice`,
`gainLoss = currentValue - shares * avgPrice`, and, when the cost basis
`shares * avgPrice` is nonzero, `gainLossPercent = gainLoss / costBasis *
100`; when the cost basis is zero the unguarded division yields NaN
(`none`), not 0 — only the portfolio-level `totalGainLossPercent` is
guarded.  Every entry of a successful valuation's holdings list arises
this way from some input holding and fetched quote. -/
theorem holding_fields_formulas (h : Holding) (q : Quote) :
    (updateHolding h q).currentValue = h.shares * q.currentPrice ∧
    (updateHolding h q).gainLoss =
      h.shares * q.currentPrice - h.shares * h.avgPrice ∧
    (h.shares * h.avgPrice ≠ 0 →
      (updateHolding h q).gainLossPercent =
        some ((h.shares * q.currentPrice - h.shares * h.avgPrice) /
          (h.shares * h.avgPrice) * 100)) ∧
    (h.shares * h.avgPrice = 0 → (updateHolding h q).gainLossPercent = none) ∧
    (∀ (now : Nat) (fetch : String → Option Quote) (holdings : List Holding)
        (v : PortfolioValuation),
      calculatePortfolioValue now fetch holdings = some v →
      ∀ u ∈ v.holdings, ∃ h2, h2 ∈ holdings ∧ ∃ q2 : Quote, u = updateHolding h2 q2) := by
  refine ⟨rfl, rfl, ?_, ?_, ?_⟩
  · intro hne
    simp [updateHolding, jsDiv, hne]
  · intro h0
    simp [updateHolding, jsDiv, h0]
  · intro now fetch holdings v hv u hu
    unfold calculatePortfolioValue at hv
    cases hempty : holdings.isEmpty with
    | true =>
        rw [hempty] at hv
        simp only [if_true] at hv
        have : v.holdings = [] := by
          cases Option.some.inj hv
          rfl
        rw [this] at hu
        exact absurd hu (List.not_mem_nil u)
    | false =>
        rw [hempty] at hv
        simp only [Bool.false_eq_true, if_false] at hv
        cases hq : getMultipleQuotes fetch (holdings.map Holding.symbol) with
        | none =>
            rw [hq] at hv
            exact absurd hv (by simp)
        | some quotes =>
            rw [hq] at hv
            simp only [Option.bind_eq_bind, Option.some_bind] at hv
            have hvh : v.holdings = matchedHoldings quotes holdings := by
              cases Option.some.inj hv
              rw [foldl_portfolioStep quotes holdings 0 0 []]
              rfl
            rw [hvh] at hu
            rcases List.mem_filterMap.mp hu with ⟨h2, hmem2, hmap2⟩
            rcases Option.map_eq_some'.mp hmap2 with ⟨q2, _, hq2⟩
            exact ⟨h2, hmem2, q2, hq2.symm⟩

/-- Witness for C4: the spec scenario — 10 shares at avgPrice 50 with
currentPrice 60 yields currentValue 600, gainLoss 100 and
gainLossPercent 20. -/
theorem holding_fields_formulas_witness :
    (updateHolding sampleHoldingX sampleQuoteX).currentValue = 600 ∧
    (updateHolding sampleHoldingX sampleQuoteX).gainLoss = 100 ∧
    (updateHolding sampleHoldingX sampleQuoteX).gainLossPercent = some 20 := by
  have h := holding_fields_formulas sampleHoldingX sampleQuoteX
  refine ⟨?_, ?_, ?_⟩
  · rw [h.1]
    norm_num [sampleHoldingX, sampleQuoteX]
  · rw [h.2.1]
    norm_num [sampleHoldingX, sampleQuoteX]
  · rw [h.2.2.1 (by norm_num [sampleHoldingX])]
    norm_num [sampleHoldingX, sampleQuoteX]

lemma rsiGains_nonneg {x : ℚ} {prices : List ℚ} (hx : x ∈ rsiGains prices) :
    0 ≤ x := by
  unfold rsiGains at hx
  rcases List.mem_map.mp hx with ⟨c, _, rfl⟩
  split
  · linarith
  · exact le_refl 0

lemma rsiLosses_nonneg {x : ℚ} {prices : List ℚ} (hx : x ∈ rsiLosses prices) :
    0 ≤ x := by
  unfold rsiLosses at hx
  rcases List.mem_map.mp hx with ⟨c, _, rfl⟩
  split
  · linarith
  · exact le_refl 0

/-- C6: for a positive period and at least `period + 1` prices, RSI is a
number in `[0, 100]`; it is exactly 100 when the trailing average loss is
zero, and exactly 50 whenever fewer than `period + 1` prices are
available. -/
theorem rsi_bounds (prices : List ℚ) (period : Nat) :
    (0 < period → period + 1 ≤ prices.length →
      ∃ r, calculateRSI prices period = some r ∧ 0 ≤ r ∧ r ≤ 100) ∧
    (0 < period → period + 1 ≤ prices.length →
      listSum (sliceLast (rsiLosses prices) period) = 0 →
      calculateRSI prices period = some 100) ∧
    (prices.length < period + 1 → calculateRSI prices period = some 50) := by
  refine ⟨?_, ?_, ?_⟩
  · intro hp hl
    have hguard : ¬ prices.length < period + 1 := by omega
    have hpq : ((period : ℚ)) ≠ 0 := Nat.cast_ne_zero.mpr (by omega)
    have hpnn : (0 : ℚ) ≤ (period : ℚ) := Nat.cast_nonneg period
    have hG : 0 ≤ listSum (sliceLast (rsiGains prices) period) :=
      listSum_nonneg (fun x hx => rsiGains_nonneg (mem_sliceLast hx))
    have hL : 0 ≤ listSum (sliceLast (rsiLosses prices) period) :=
      listSum_nonneg (fun x hx => rsiLosses_nonneg (mem_sliceLast hx))
    by_cases hsl : listSum (sliceLast (rsiLosses prices) period) / (period : ℚ) = 0
    · refine ⟨100, ?_, by norm_num, by norm_num⟩
      simp [calculateRSI, hguard, jsDiv, hpq, hsl]
    · have hslpos : 0 < listSum (sliceLast (rsiLosses prices) period) / (period : ℚ) :=
        lt_of_le_of_ne (div_nonneg hL hpnn) (Ne.symm hsl)
      have hrs : 0 ≤ (listSum (sliceLast (rsiGains prices) period) / (period : ℚ)) /
          (listSum (sliceLast (rsiLosses prices) period) / (period : ℚ)) :=
        div_nonneg (div_nonneg hG hpnn) (le_of_lt hslpos)
      have h1rs : (0 : ℚ) < 1 + (listSum (sliceLast (rsiGains prices) period) / (period : ℚ)) /
          (listSum (sliceLast (rsiLosses prices) period) / (period : ℚ)) := by linarith
      refine ⟨100 - 100 / (1 + (listSum (sliceLast (rsiGains prices) period) / (period : ℚ)) /
          (listSum (sliceLast (rsiLosses prices) period) / (period : ℚ))), ?_, ?_, ?_⟩
      · simp [calculateRSI, hguard, jsDiv, hpq, hsl, ne_of_gt h1rs]
      · have hle : 100 / (1 + (listSum (sliceLast (rsiGains prices) period) / (period : ℚ)) /
            (listSum (sliceLast (rsiLosses prices) period) / (period : ℚ))) ≤ 100 :=
          div_le_self (by norm_num) (by linarith)
        linarith
      · have hposf : 0 < 100 / (1 + (listSum (sliceLast (rsiGains prices) period) / (period : ℚ)) /
            (listSum (sliceLast (rsiLosses prices) period) / (period : ℚ))) :=
          div_pos (by norm_num) h1rs
        linarith
  · intro hp hl h0
    have hguard : ¬ prices.length < period + 1 := by omega
    have hpq : ((period : ℚ)) ≠ 0 := Nat.cast_ne_zero.mpr (by omega)
    simp [calculateRSI, hguard, jsDiv, hpq, h0]
  · intro hshort
    simp [calculateRSI, hshort]

/-- Witness for C6: on four strictly rising prices with period 3 the
average loss is zero and RSI is exactly 100; with only two prices and
period 3, RSI is the neutral 50; the in-range conjunct applied at the
same rising input yields a defined value. -/
theorem rsi_bounds_witness :
    calculateRSI [1, 2, 3, 4] 3 = some 100 ∧
    calculateRSI [1, 2] 3 = some 50 ∧
    (calculateRSI [1, 2, 3, 4] 3).isSome = true := by
  refine ⟨?_, ?_, ?_⟩
  · exact (rsi_bounds [1, 2, 3, 4] 3).2.1 (by decide) (by decide)
      (by norm_num [rsiLosses, rsiChanges, sliceLast, listSum])
  · exact (rsi_bounds [1, 2] 3).2.2 (by decide)
  · obtain ⟨r, hr, _, _⟩ := (rsi_bounds [1, 2, 3, 4] 3).1 (by decide) (by decide)
    rw [hr]
    rfl

/-- C7: a cache get returns the stored data without invoking the fetcher
when an entry exists with `now - timestamp < 5 minutes`; otherwise it
invokes the fetcher, stores the result with the current timestamp and
returns it.  Consequently two gets for the same key within one TTL window
invoke the fetcher exactly once (the first call sets the flag, the second
is a pure hit returning the first fetch's data with the cache unchanged),
and a get after TTL expiry invokes it again. -/
theorem cache_ttl_discipline (cache : Cache) (now t0 t1 t2 : Nat) (key : String)
    (f g g2 : Unit → Quote) (e : CacheEntry) :
    (cacheMapGet cache key = some e → now - e.timestamp < cacheTimeout →
      cachedGet cache now key f = (e.data, cache, false)) ∧
    (getCached cache now key = none →
      cachedGet cache now key f = (f (), setCached cache now key (f ()), true)) ∧
    (cacheMapGet cache key = none → t1 - t0 < cacheTimeout →
      (cachedGet cache t0 key f).2.2 = true ∧
      cachedGet (cachedGet cache t0 key f).2.1 t1 key g =
        (f (), (cachedGet cache t0 key f).2.1, false)) ∧
    (cacheMapGet cache key = none → cacheTimeout ≤ t2 - t0 →
      (cachedGet (cachedGet cache t0 key f).2.1 t2 key g2).2.2 = true) := by
  refine ⟨?_, ?_, ?_, ?_⟩
  · intro h1 h2
    have hg : getCached cache now key = some e.data := by
      unfold getCached
      rw [h1]
      show (if now - e.timestamp < cacheTimeout then some e.data else none) =
        some e.data
      rw [if_pos h2]
    unfold cachedGet
    rw [hg]
  · intro h1
    unfold cachedGet
    rw [h1]
  · intro h1 h2
    have hg0 : getCached cache t0 key = none := by
      unfold getCached
      rw [h1]
    have hc1 : (cachedGet cache t0 key f).2.1 = setCached cache t0 key (f ()) := by
      unfold cachedGet
      rw [hg0]
    have hm : cacheMapGet (setCached cache t0 key (f ())) key =
        some { data := f (), timestamp := t0 } := by
      simp [setCached, cacheMapGet]
    have hg1 : getCached (setCached cache t0 key (f ())) t1 key = some (f ()) := by
      unfold getCached
      rw [hm]
      show (if t1 - t0 < cacheTimeout then some (f ()) else none) = some (f ())
      rw [if_pos h2]
    constructor
    · unfold cachedGet
      rw [hg0]
    · rw [hc1]
      unfold cachedGet
      rw [hg1]
  · intro h1 h2
    have hg0 : getCached cache t0 key = none := by
      unfold getCached
      rw [h1]
    have hc1 : (cachedGet cache t0 key f).2.1 = setCached cache t0 key (f ()) := by
      unfold cachedGet
      rw [hg0]
    have hm : cacheMapGet (setCached cache t0 key (f ())) key =
        some { data := f (), timestamp := t0 } := by
      simp [setCached, cacheMapGet]
    have hg2 : getCached (setCached cache t0 key (f ())) t2 key = none := by
      unfold getCached
      rw [hm]
      show (if t2 - t0 < cacheTimeout then some (f ()) else none) = none
      rw [if_neg (by omega)]
    rw [hc1]
    unfold cachedGet
    rw [hg2]

/-- Witness for C7: starting from an empty cache, the first get at time 0
fetches, the second get at time 100 (within the 300000 ms TTL) is a pure
hit returning the first fetch's quote, a get at time 300000 (expired)
fetches again, and a get on a cache that already holds a fresh entry
returns it without fetching. -/
theorem cache_ttl_discipline_witness :
    (cachedGet [] 0 "X" (fun _ => sampleQuoteX)).2.2 = true ∧
    cachedGet (cachedGet [] 0 "X" (fun _ => sampleQuoteX)).2.1 100 "X"
        (fun _ => sampleQuoteY) =
      (sampleQuoteX, (cachedGet [] 0 "X" (fun _ => sampleQuoteX)).2.1, false) ∧
    (cachedGet (cachedGet [] 0 "X" (fun _ => sampleQuoteX)).2.1 300000 "X"
        (fun _ => sampleQuoteY)).2.2 = true ∧
    cachedGet [("X", { data := sampleQuoteX, timestamp := 0 })] 100 "X"
        (fun _ => sampleQuoteY) =
      (sampleQuoteX, [("X", { data := sampleQuoteX, timestamp := 0 })], false) := by
  have h1 := (cache_ttl_discipline [] 0 0 100 300000 "X" (fun _ => sampleQuoteX)
    (fun _ => sampleQuoteY) (fun _ => sampleQuoteY)
    { data := sampleQuoteX, timestamp := 0 }).2.2.1 rfl (by decide)
  have h2 := (cache_ttl_discipline [] 0 0 100 300000 "X" (fun _ => sampleQuoteX)
    (fun _ => sampleQuoteY) (fun _ => sampleQuoteY)
    { data := sampleQuoteX, timestamp := 0 }).2.2.2 rfl (by decide)
  have h3 := (cache_ttl_discipline [("X", { data := sampleQuoteX, timestamp := 0 })]
    100 0 0 0 "X" (fun _ => sampleQuoteY) (fun _ => sampleQuoteY) (fun _ => sampleQuoteY)
    { data := sampleQuoteX, timestamp := 0 }).1 (by simp [cacheMapGet]) (by decide)
  exact ⟨h1.1, h1.2, h2, h3⟩

/-- C8 counterexample: on the empty price sequence — which the claim
explicitly includes — `calculateSupportLevel` and
`calculateResistanceLevel` read `prices[-1]` and return `undefined`
(modelled `none`), not the claimed "single latest close" sentinel. -/
theorem support_empty_undefined :
    calculateSupportLevel [] = none ∧ calculateResistanceLevel [] = none := by
  decide

/-- C8 (amended): for every price sequence shorter than the required
period, SMA returns 0 and RSI returns 50 (never throwing, never NaN), and
for every NONEMPTY sequence with fewer than 20 bars SupportLevel and
ResistanceLevel both return the single latest close; on the empty
sequence support/resistance instead return `undefined` (no numeric
value). -/
theorem short_series_sentinels (prices : List ℚ) (period : Nat) :
    (prices.length < period → calculateSMA prices period = some 0) ∧
    (prices.length < period + 1 → calculateRSI prices period = some 50) ∧
    (∀ x : ℚ, prices.get? (prices.length - 1) = some x → prices.length < 20 →
      calculateSupportLevel prices = some x ∧
      calculateResistanceLevel prices = some x) := by
  refine ⟨?_, ?_, ?_⟩
  · intro hlt
    unfold calculateSMA
    rw [if_pos hlt]
  · intro hlt
    unfold calculateRSI
    rw [if_pos hlt]
  · intro x hx hlen
    have hpos : 0 < prices.length := by
      rcases List.get?_eq_some.mp hx with ⟨hlt2, _⟩
      omega
    have hji : jsIndex prices ((prices.length : Int) - 1) = some x := by
      unfold jsIndex
      rw [if_neg (by omega)]
      have ht : ((prices.length : Int) - 1).toNat = prices.length - 1 := by omega
      rw [ht, hx]
    constructor
    · unfold calculateSupportLevel
      rw [if_pos hlen, hji]
    · unfold calculateResistanceLevel
      rw [if_pos hlen, hji]

/-- Witness for C8: a three-bar series is shorter than the 20-bar period
of every sliding indicator used with it, so SMA gives 0, RSI gives 50 and
support/resistance give the latest close 4. -/
theorem short_series_sentinels_witness :
    calculateSMA [5, 6, 4] 20 = some 0 ∧
    calculateRSI [5, 6, 4] 20 = some 50 ∧
    calculateSupportLevel [5, 6, 4] = some 4 ∧
    calculateResistanceLevel [5, 6, 4] = some 4 := by
  have h := short_series_sentinels [5, 6, 4] 20
  exact ⟨h.1 (by decide), h.2.1 (by decide), (h.2.2 4 (by decide) (by decide)).1,
    (h.2.2 4 (by decide) (by decide)).2⟩

/-- C10: for every nonempty price sequence the support level and the
resistance level are defined numbers with support ≤ resistance; with
fewer than 20 prices both equal the single latest close, and with 20 or
more prices they are the minimum and the maximum of the same trailing-20
window. -/
theorem support_le_resistance (prices : List ℚ) (hne : prices ≠ []) :
    ∃ s r, calculateSupportLevel prices = some s ∧
      calculateResistanceLevel prices = some r ∧ s ≤ r ∧
      (prices.length < 20 → s = r ∧ prices.get? (prices.length - 1) = some s) ∧
      (20 ≤ prices.length →
        s ∈ sliceLast prices 20 ∧ r ∈ sliceLast prices 20 ∧
        ∀ x ∈ sliceLast prices 20, s ≤ x ∧ x ≤ r) := by
  have hpos : 0 < prices.length := List.length_pos.mpr hne
  by_cases hlen : prices.length < 20
  · obtain ⟨x, hx⟩ : ∃ x, prices.get? (prices.length - 1) = some x := by
      cases hg : prices.get? (prices.length - 1) with
      | some y => exact ⟨y, rfl⟩
      | none =>
          rw [List.get?_eq_none] at hg
          omega
    have hji : jsIndex prices ((prices.length : Int) - 1) = some x := by
      unfold jsIndex
      rw [if_neg (by omega)]
      have ht : ((prices.length : Int) - 1).toNat = prices.length - 1 := by omega
      rw [ht, hx]
    refine ⟨x, x, ?_, ?_, le_refl x, fun _ => ⟨rfl, hx⟩,
      fun h20 => absurd h20 (by omega)⟩
    · unfold calculateSupportLevel
      rw [if_pos hlen, hji]
    · unfold calculateResistanceLevel
      rw [if_pos hlen, hji]
  · cases hw : sliceLast prices 20 with
    | nil =>
        exfalso
        have hlw : (sliceLast prices 20).length = 20 := by
          unfold sliceLast
          rw [if_neg (by omega), List.length_drop]
          omega
        rw [hw] at hlw
        simp at hlw
    | cons w ws =>
        refine ⟨ws.foldl min w, ws.foldl max w, ?_, ?_, ?_,
          fun hlt => absurd hlt hlen, fun _ => ?_⟩
        · unfold calculateSupportLevel
          rw [if_neg hlen, hw]
          rfl
        · unfold calculateResistanceLevel
          rw [if_neg hlen, hw]
          rfl
        · exact le_trans (foldl_min_le_init ws w) (le_foldl_max_init ws w)
        · exact ⟨foldl_min_mem ws w, foldl_max_mem ws w,
            fun x hx => ⟨foldl_min_le ws w x hx, le_foldl_max ws w x hx⟩⟩

/-- Witness for C10: on the one-bar series `[5]` support and resistance
exist, coincide and are numeric. -/
theorem support_le_resistance_witness :
    calculateSupportLevel [5] = calculateResistanceLevel [5] ∧
    (calculateSupportLevel [5]).isSome = true := by
  obtain ⟨s, r, hs, hr, hle, hshort, _⟩ := support_le_resistance [5] (by decide)
  obtain ⟨hsr, _⟩ := hshort (by decide)
  refine ⟨?_, ?_⟩
  · rw [hs, hr, hsr]
  · rw [hs]
    rfl

end FinAnalysis
